import Mathlib

/-!
Verification of the BRO-HDF5 table codec (`src/bronhdf5/bronhdf5.py`).

The Python module is a bidirectional codec between pandas DataFrames
(tables of named columns, possibly nesting other tables) and an HDF5
group/dataset/attribute tree.  We embed:

* the in-memory data model (`Value`, `Table`, `Cols`, `Vals`) —
  a table is an ordered sequence of named columns plus two metadata
  sequences `VariableDescriptions`/`VariableUnits` (byte-strings are
  modelled as Lean `String`s, floats by their bit pattern: the codec
  never computes with numeric payloads, it only moves them);
* the HDF5 container (`HNode`, `Children`, `Root`) — a node is either a
  dataset holding an array of values or a group holding named children;
  both carry the optional `matlab_type` attribute (`MLType`, which
  distinguishes a bytes-valued attribute from a str-valued one);
* the codec itself: `inferColumnMatlabType` (infer_column_matlab_type),
  `writeDf` (write_df / write_df_column / write_df_metadata),
  `parseBronhdf` (parse_bronhdf), `checkBronVersion`
  (_check_bron_version) and `readBron2ToGmws` (read_bron2_to_gmws).

Python exceptions are modelled by the `Err` type, with one constructor
per exception class the source can raise.  Mutable HDF5 groups are
modelled functionally: writers return the node they would have built,
readers traverse it.  `parse_bronhdf` recurses through data that is not
structurally smaller in Lean's eyes (children are found by name), so it
is defined with an explicit recursion budget (`parseF`); the public
wrapper `parseBronhdf` supplies a budget that provably exceeds the tree
depth, mirroring Python's (very large) interpreter recursion limit.
-/

/-- Exception classes raised by `bronhdf5.py` (KeyError, NotImplementedError,
ValueError, TypeError, AttributeError and the bare `Exception` used for the
bad-datamodel failure), plus `recursionError` standing for Python's
interpreter recursion limit, which the fuelled decoder uses as its
out-of-budget result (never reached for budgets above the tree depth). -/
inductive Err where
  | keyError (msg : String)
  | notImplementedError (msg : String)
  | valueError (msg : String)
  | typeError (msg : String)
  | attributeError (msg : String)
  | exception (msg : String)
  | recursionError
  deriving DecidableEq

/-- Value of a `matlab_type` attribute as seen by `h5py`: either a bytes
object (written via `np.array(b"...")`, see the BYTES_ARRAY comment in the
source) or a plain character string. `parse_bronhdf` line 229 compares the
attribute against both `b"table"` and `"table"`. -/
inductive MLType where
  | bstr (s : String)
  | ustr (s : String)
  deriving DecidableEq

mutual
/-- A cell value of a column: int64 / float64 / bool / bytes scalars, or a
nested table (a `DataFrame` stored inside an object column).  Floats are
carried as an opaque bit pattern; the codec never interprets them. -/
inductive Value where
  | vint (i : Int)
  | vfloat (bits : Nat)
  | vbool (b : Bool)
  | vbytes (s : String)
  | vtable (t : Table)
  deriving DecidableEq

/-- A pandas DataFrame as used by the source: ordered named columns plus the
`VariableDescriptions` and `VariableUnits` metadata sequences that
`parse_bronhdf` attaches to the frame (absent metadata is the empty list,
which is also how `write_df_metadata` treats a missing attribute). -/
inductive Table where
  | mk (cols : Cols) (vds : List String) (vus : List String)
  deriving DecidableEq

/-- Ordered sequence of named columns of a table. -/
inductive Cols where
  | nil
  | cons (name : String) (vals : Vals) (rest : Cols)
  deriving DecidableEq

/-- Sequence of cell values of one column. -/
inductive Vals where
  | nil
  | cons (v : Value) (rest : Vals)
  deriving DecidableEq
end

mutual
/-- An HDF5 node: a dataset (array of values) or a group (named children),
each carrying the optional `matlab_type` attribute. -/
inductive HNode where
  | dset (data : Vals) (mltype : Option MLType)
  | grp (children : Children) (mltype : Option MLType)
  deriving DecidableEq

/-- Ordered named children of an HDF5 group. -/
inductive Children where
  | nil
  | cons (name : String) (node : HNode) (rest : Children)
  deriving DecidableEq
end

/-- The root HDF5 group of a bron2 file: the optional `BRON_VERSION`
attribute (a (major, minor) pair) and the per-GMW child groups. -/
structure Root where
  version : Option (Int × Int)
  children : Children
  deriving DecidableEq

/-- The fixed three-table aggregate (class `GMW`, source lines 112-129). -/
structure GMW where
  History : Table
  Tube : Table
  Well : Table
  deriving DecidableEq

instance excDecEq {ε α : Type} [DecidableEq ε] [DecidableEq α] : DecidableEq (Except ε α) := fun a b =>
  match a, b with
  | .ok x, .ok y => if h : x = y then .isTrue (by rw [h]) else .isFalse (by intro hc; cases hc; exact h rfl)
  | .error x, .error y => if h : x = y then .isTrue (by rw [h]) else .isFalse (by intro hc; cases hc; exact h rfl)
  | .ok _, .error _ => .isFalse (by intro hc; cases hc)
  | .error _, .ok _ => .isFalse (by intro hc; cases hc)

/-- The columns of a table. -/
def Table.cols : Table → Cols
  | .mk c _ _ => c

/-- The `VariableDescriptions` metadata of a table. -/
def Table.vds : Table → List String
  | .mk _ d _ => d

/-- The `VariableUnits` metadata of a table. -/
def Table.vus : Table → List String
  | .mk _ _ u => u

/-- View a `Vals` sequence as an ordinary list. -/
def Vals.toList : Vals → List Value
  | .nil => []
  | .cons v rest => v :: rest.toList

/-- Build a `Vals` sequence from an ordinary list. -/
def Vals.ofList : List Value → Vals
  | [] => .nil
  | v :: rest => .cons v (Vals.ofList rest)

/-- Number of cells in a column. -/
def Vals.length (vs : Vals) : Nat := vs.toList.length

/-- The column names of a column sequence, in order (`list(df.columns)`). -/
def Cols.names : Cols → List String
  | .nil => []
  | .cons name _ rest => name :: rest.names

/-- The per-column value sequences, in column order. -/
def Cols.valLists : Cols → List Vals
  | .nil => []
  | .cons _ vals rest => vals :: rest.valLists

/-- View a column sequence as an ordinary association list. -/
def Cols.toList : Cols → List (String × Vals)
  | .nil => []
  | .cons name vals rest => (name, vals) :: rest.toList

/-- Build HDF5 children from an ordinary association list. -/
def Children.ofList : List (String × HNode) → Children
  | [] => .nil
  | (name, node) :: rest => .cons name node (Children.ofList rest)

/-- Find a child of a group by name (`hdfgroup[name]`, first match). -/
def Children.find : Children → String → Option HNode
  | .nil, _ => none
  | .cons name node rest, key => if name = key then some node else rest.find key

/-- Find by name in an association list of nodes. -/
def listFind : List (String × HNode) → String → Option HNode
  | [], _ => none
  | (name, node) :: rest, key => if name = key then some node else listFind rest key

mutual
/-- Number of nodes of an HDF5 tree (used only to bound the decoder's
recursion budget: every node, however deep, counts at least one). -/
def HNode.size : HNode → Nat
  | .dset _ _ => 1
  | .grp ch _ => 1 + ch.size

/-- Total node count of a child sequence. -/
def Children.size : Children → Nat
  | .nil => 0
  | .cons _ node rest => node.size + rest.size
end

/-! ### Injectivity of the decimal rendering of `Nat`

`write_df_column` names the rows of a nested-table column `Element1`,
`Element2`, … (f-string with a decimal index) and `parse_bronhdf` looks the
same names up again; correctness of that lookup rests on distinct indices
producing distinct decimal strings.  We verify core's `Nat.toDigits` against
an evaluation function. -/

/-- Numeric value of a decimal digit character. -/
def digitVal (c : Char) : Nat := c.toNat - 48

/-- Left-to-right evaluation of a decimal digit string, with accumulator. -/
def valOfDigits : List Char → Nat → Nat
  | [], acc => acc
  | c :: cs, acc => valOfDigits cs (acc * 10 + digitVal c)

/-- The on-wire name of the `i`-th row of a nested-table column
(`f"Element{i}"`, one-based in both writer and reader). -/
def elementKey (i : Nat) : String := "Element" ++ toString i

/-! ### Type Tagger (`infer_column_matlab_type`, source lines 34-55) -/

/-- Whether a cell value is a nested table (`isinstance(z, DataFrame)`). -/
def isTableVal : Value → Bool
  | .vtable _ => true
  | _ => false

/-- The name of the numpy dtype of a cell's runtime type
(`np.dtype(type(z)).name`): Python ints are int64, floats float64, bools
bool, bytes objects the flexible bytes dtype (whose name the source
compares against `b"bytes"`).  A `DataFrame` cell has no numpy dtype — the
source never reaches this call for one because the any-table test comes
first — so the `vtable` case is given the inert name "object". -/
def npDtypeName : Value → String
  | .vint _ => "int64"
  | .vfloat _ => "float64"
  | .vbool _ => "bool"
  | .vbytes _ => "bytes"
  | .vtable _ => "object"

/-- The `dtype` pandas infers for a column holding these cells (`col.dtype`):
a homogeneous non-empty numeric/bool column gets the corresponding numpy
dtype, everything else (byte-strings, nested tables, mixtures, empty
columns) is the generic object dtype `np.dtype("O")`, modelled as `none`.
The model derives the dtype from the cells because the decoder rebuilds
columns from raw arrays, so the dtype is determined by the data. -/
def seriesDtypeName (vs : List Value) : Option String :=
  match vs with
  | [] => none
  | _ =>
    if vs.all (fun v => match v with | .vint _ => true | _ => false) then some "int64"
    else if vs.all (fun v => match v with | .vfloat _ => true | _ => false) then some "float64"
    else if vs.all (fun v => match v with | .vbool _ => true | _ => false) then some "bool"
    else none

/-- Error message of the tagger's `ValueError` (source line 52). -/
def inferErrorMsg : String := "Unable to infer matlab_type of column"

/-- Model of `infer_column_matlab_type` (source lines 34-55): tag is `b"table"` if any
cell is a DataFrame; else the column dtype's name if the dtype is not
object; else the single runtime dtype name shared by all cells, a
`ValueError` if the cells have several distinct runtime dtypes (or none);
finally a resulting `b"bytes"` is renamed `b"cellstr"`. -/
def inferColumnMatlabType (vs : List Value) : Except Err String :=
  let raw : Except Err String :=
    if vs.any isTableVal then .ok "table"
    else
      match seriesDtypeName vs with
      | some dn => .ok dn
      | none =>
        if ((vs.map npDtypeName).dedup).length = 1 then
          match vs with
          | [] => .error (.valueError inferErrorMsg)
          | v :: _ => .ok (npDtypeName v)
        else .error (.valueError inferErrorMsg)
  raw.map (fun ml => if ml = "bytes" then "cellstr" else ml)

/-! ### Table Encoder (`write_df` / `write_df_column` / `write_df_metadata`,
source lines 19-77 and 80-109) -/

/-- Wrap a list of byte-strings as a dataset's value array. -/
def bytesVals (l : List String) : Vals := Vals.ofList (l.map Value.vbytes)

/-- The three metadata datasets `write_df_metadata` creates (source lines
91-109): `VariableNames` holding the column names, then
`VariableDescriptions` and `VariableUnits` (the table's metadata if
present, else an empty byte array), each tagged `b"cellstr"`.  The
`matlab_type = b"table"` attribute the same function sets on the group
itself is attached when the enclosing group node is assembled. -/
def writeDfMetadata (colnames vds vus : List String) : List (String × HNode) :=
  [("VariableNames", .dset (bytesVals colnames) (some (.bstr "cellstr"))),
   ("VariableDescriptions", .dset (bytesVals vds) (some (.bstr "cellstr"))),
   ("VariableUnits", .dset (bytesVals vus) (some (.bstr "cellstr")))]

mutual
/-- Model of `write_df` (source lines 19-31): write the metadata datasets, then each
column in order, and return the resulting group node (tagged `b"table"`). -/
def writeDf : Table → Except Err HNode
  | .mk cols vds vus => do
    let ch ← writeCols (writeDfMetadata cols.names vds vus) cols
    .ok (.grp (Children.ofList ch) (some (.bstr "table")))
  termination_by structural t => t

/-- The column loop of `write_df` (source lines 30-31) together with
`write_df_column` (source lines 58-77), with h5py's behaviour on a clashing
name: the tag is inferred first (source line 67), then
`create_group`/`create_dataset` raises a `ValueError` if a child of that
name already exists; a `b"table"` column becomes a group tagged `b"table"`
holding `Element1..ElementN` (one recursive `write_df` per row, one-based)
followed by the metadata datasets of `DataFrame(col)` — a one-column frame
with no metadata attributes, hence empty description/unit arrays; any
other tag becomes a dataset holding the column's raw values, tagged with
the tag. -/
def writeCols (acc : List (String × HNode)) : Cols → Except Err (List (String × HNode))
  | .nil => .ok acc
  | .cons name vals rest => do
    let ml ← inferColumnMatlabType vals.toList
    if name ∈ acc.map Prod.fst then
      .error (.valueError ("Unable to create dataset (name already exists): " ++ name))
    else if ml = "table" then do
      let elems ← writeElems 1 vals
      let node := HNode.grp (Children.ofList (elems ++ writeDfMetadata [name] [] []))
        (some (.bstr "table"))
      writeCols (acc ++ [(name, node)]) rest
    else
      writeCols (acc ++ [(name, HNode.dset vals (some (.bstr ml)))]) rest
  termination_by structural c => c

/-- The `Element{i}` loop of `write_df_column` (source lines 72-73):
`enumerate(col, start=1)`, each row written by a recursive `write_df`.
A row that is not a DataFrame makes that call fail the way Python does
(`z.columns` raises AttributeError inside `write_df_metadata`). -/
def writeElems (i : Nat) : Vals → Except Err (List (String × HNode))
  | .nil => .ok []
  | .cons v rest => do
    let node ← match v with
      | .vtable t => writeDf t
      | _ => .error (.attributeError "object has no attribute columns")
    let tail ← writeElems (i + 1) rest
    .ok ((elementKey i, node) :: tail)
  termination_by structural vs => vs
end

/-! ### Table Decoder (`parse_bronhdf`, source lines 188-244) -/

/-- Look up a named object in a group (`hdfgroup[name]`); a missing name
raises `KeyError` in h5py. -/
def getChild (ch : Children) (name : String) : Except Err HNode :=
  match ch.find name with
  | some node => .ok node
  | none => .error (.keyError ("object " ++ name ++ " does not exist"))

/-- Read a node's full contents (`node[:]`); slicing a group instead of a
dataset raises `TypeError` in h5py. -/
def dsetData : HNode → Except Err Vals
  | .dset vs _ => .ok vs
  | .grp _ _ => .error (.typeError "cannot slice a group")

/-- Read the `matlab_type` attribute (`node.attrs["matlab_type"]`); a
missing attribute raises `KeyError`. -/
def attrMatlabType : HNode → Except Err MLType
  | .dset _ (some ml) => .ok ml
  | .grp _ (some ml) => .ok ml
  | .dset _ none => .error (.keyError "matlab_type")
  | .grp _ none => .error (.keyError "matlab_type")

/-- Use a stored `VariableNames` entry as a lookup key for `hdfgroup[...]`;
only byte-strings are usable as h5py keys, anything else raises
`TypeError`. -/
def valAsKey : Value → Except Err String
  | .vbytes s => .ok s
  | _ => .error (.typeError "object names must be str or bytes")

/-- Coercion a stored metadata cell undergoes in `data.astype(bytes)`
(source line 214): byte-strings pass through, numpy renders other scalars
as the bytes of their decimal text (exact rendering immaterial here: the
codec's own files always hold byte-strings). -/
def astypeBytes : Value → String
  | .vbytes s => s
  | .vint i => toString i
  | .vfloat bits => toString bits
  | .vbool b => if b then "True" else "False"
  | .vtable _ => ""

/-- The metadata loop of `parse_bronhdf` (source lines 210-216): read the
stored `VariableDescriptions` / `VariableUnits` array; if it is non-empty
keep it (as bytes), otherwise synthesize one empty byte-string per column
name. -/
def readMetadataArray (ch : Children) (name : String) (ncols : Nat) : Except Err (List String) := do
  let node ← getChild ch name
  let data ← dsetData node
  if 0 < data.toList.length then
    .ok (data.toList.map astypeBytes)
  else
    .ok (List.replicate ncols "")

/-- Error message of the bad-datamodel failure (source line 224). -/
def badDatamodelMsg : String := "Bad Bron datamodel: no non-nested column"

/-- The row-count loop of `parse_bronhdf` (source lines 218-224): walk the
column names in order and take the size of the first one stored as a plain
dataset; if every column is a (nested-table) group, raise the explicit
bad-datamodel `Exception` of the `for`-`else` branch. -/
def findNrows (ch : Children) : List String → Except Err Nat
  | [] => .error (.exception badDatamodelMsg)
  | cn :: rest => do
    let node ← getChild ch cn
    match node with
    | .dset vs _ => .ok vs.toList.length
    | .grp _ _ => findNrows ch rest

/-- The `Element{i}` read loop of `parse_bronhdf` (source lines 232-235):
`range(1, nrows + 1)`, decoding each `Element{i}` child with the supplied
recursive decoder and collecting the nested tables as the column's cells. -/
def parseElemsGo (rec : HNode → Except Err Table) (ch : Children) (i : Nat) : Nat → Except Err Vals
  | 0 => .ok .nil
  | count + 1 => do
    let e ← getChild ch (elementKey i)
    let t ← rec e
    let rest ← parseElemsGo rec ch (i + 1) count
    .ok (.cons (.vtable t) rest)

/-- Reading one column's values given its `matlab_type` tag (the branch at
source lines 229-236): a tag that is neither `b"table"` nor `"table"` means
the dataset's values are taken verbatim (pandas raises a `ValueError` if
their number disagrees with the frame's row count); the table tag means
decoding `Element1..Element<nrows>` from the column's group (slicing or
string-indexing the wrong kind of node raises the h5py `TypeError`s). -/
def readColumnValues (rec : HNode → Except Err Table) (ml : MLType) (colnode : HNode)
    (nrows : Nat) : Except Err Vals :=
  if ml ≠ MLType.bstr "table" ∧ ml ≠ MLType.ustr "table" then do
    let data ← dsetData colnode
    if data.toList.length = nrows then .ok data
    else .error (.valueError "Length of values does not match length of index")
  else
    match colnode with
    | .grp ccs _ => parseElemsGo rec ccs 1 nrows
    | .dset _ _ => .error (.typeError "cannot index a dataset with an element name")

/-- The column read loop of `parse_bronhdf` (source lines 227-236): for each
column name, look the column up, read its `matlab_type` attribute, and read
its values according to the tag. -/
def parseColsGo (rec : HNode → Except Err Table) (ch : Children) (nrows : Nat) :
    List String → Except Err Cols
  | [] => .ok .nil
  | cn :: rest => do
    let colnode ← getChild ch cn
    let ml ← attrMatlabType colnode
    let vals ← readColumnValues rec ml colnode nrows
    let restCols ← parseColsGo rec ch nrows rest
    .ok (.cons cn vals restCols)

/-- The canonical empty table `parse_bronhdf` returns for an empty-table
marker (source lines 200-208): `DataFrame([])` with empty
`VariableDescriptions`/`VariableUnits`. -/
def emptyTable : Table := .mk .nil [] []

/-- One level of `parse_bronhdf` (source lines 188-244), parametrised by the
decoder used for nested tables: read `VariableNames`; return the canonical
empty table if it is empty or the single sentinel `b"Var1"`; otherwise read
the metadata arrays, determine the row count, decode every column and
attach the metadata. -/
def parseBody (rec : HNode → Except Err Table) (h : HNode) : Except Err Table :=
  match h with
  | .dset _ _ => .error (.typeError "cannot index a dataset with a name")
  | .grp ch _ => do
    let vnNode ← getChild ch "VariableNames"
    let vnData ← dsetData vnNode
    let raw := vnData.toList
    if raw.length = 0 ∨ (raw.length = 1 ∧ raw.head? = some (Value.vbytes "Var1")) then
      .ok emptyTable
    else do
      let colnames ← raw.mapM valAsKey
      let vds ← readMetadataArray ch "VariableDescriptions" colnames.length
      let vus ← readMetadataArray ch "VariableUnits" colnames.length
      let nrows ← findNrows ch colnames
      let cols ← parseColsGo rec ch nrows colnames
      .ok (.mk cols vds vus)

/-- Model of `parse_bronhdf` with an explicit recursion budget: one unit is spent per
nesting level, and exhausting the budget is Python's `RecursionError`.
`parseBronhdf` always supplies a sufficient budget. -/
def parseF : Nat → HNode → Except Err Table
  | 0, _ => .error .recursionError
  | n + 1, h => parseBody (parseF n) h

/-- Model of `parse_bronhdf` (source lines 188-244): run `parseF` with a recursion
budget larger than the node count of the tree, which no chain of nested
decodes can exhaust. -/
def parseBronhdf (h : HNode) : Except Err Table := parseF (h.size + 1) h

/-- Encode, then decode: the composite whose identity on well-formed tables
is the round-trip property. -/
def roundTrip (t : Table) : Except Err Table := (writeDf t).bind parseBronhdf

/-! ### Version Gate (`_check_bron_version`, source lines 143-158) -/

/-- The codec's format version (source line 16). -/
def BRON_VERSION : Int × Int := (2, 0)

/-- Model of `_check_bron_version` (source lines 143-158): `KeyError` if the root has
no `BRON_VERSION` attribute, `NotImplementedError` if its major component
differs from the supported major version, silence otherwise (the minor
component is never examined). -/
def checkBronVersion (root : Root) : Except Err Unit :=
  match root.version with
  | none => .error (.keyError "Cannot locate attribute BRON_VERSION (Very old bron-file?)")
  | some v =>
    if v.1 ≠ BRON_VERSION.1 then
      .error (.notImplementedError "The HDF5-file has an unsupported BRON_VERSION major version")
    else .ok ()

/-! ### Aggregate Codec (`read_bron2_to_gmws`, source lines 161-184) -/

/-- Codepoints Python treats as strippable whitespace around the argument
of `int()` (the Unicode whitespace set of CPython's string-to-int
conversion, verified exhaustively against `int(c + "5")`/`int("5" + c)`
over the whole codepoint range). -/
def pyWhitespaceCodes : List Nat :=
  [0x9, 0xA, 0xB, 0xC, 0xD, 0x20, 0x85, 0xA0, 0x1680,
   0x2000, 0x2001, 0x2002, 0x2003, 0x2004, 0x2005, 0x2006, 0x2007,
   0x2008, 0x2009, 0x200A, 0x2028, 0x2029, 0x202F, 0x205F, 0x3000]

/-- Whether `int()` strips the character at either end of its argument. -/
def isPySpace (c : Char) : Bool := pyWhitespaceCodes.contains c.toNat

/-- Codepoints of the DIGIT ZERO of every run of ten Unicode decimal-digit
characters (general category Nd, Unicode 14.0 as shipped with the
2022-era CPython the repository targets): the codepoint at offset k from
a listed start is the digit of value k, and these runs are exactly the
characters `int()` accepts as base-10 digits. -/
def ndZeroCodes : List Nat :=
  [0x30, 0x660, 0x6F0, 0x7C0, 0x966, 0x9E6, 0xA66, 0xAE6, 0xB66, 0xBE6,
   0xC66, 0xCE6, 0xD66, 0xDE6, 0xE50, 0xED0, 0xF20, 0x1040, 0x1090, 0x17E0,
   0x1810, 0x1946, 0x19D0, 0x1A80, 0x1A90, 0x1B50, 0x1BB0, 0x1C40, 0x1C50, 0xA620,
   0xA8D0, 0xA900, 0xA9D0, 0xA9F0, 0xAA50, 0xABF0, 0xFF10, 0x104A0, 0x10D30, 0x11066,
   0x110F0, 0x11136, 0x111D0, 0x112F0, 0x11450, 0x114D0, 0x11650, 0x116C0, 0x11730, 0x118E0,
   0x11950, 0x11C50, 0x11D50, 0x11DA0, 0x16A60, 0x16AC0, 0x16B50, 0x1D7CE, 0x1D7D8, 0x1D7E2,
   0x1D7EC, 0x1D7F6, 0x1E140, 0x1E2F0, 0x1E950, 0x1FBF0]

/-- Decimal value of a character as a Unicode digit, if it is one. -/
def pyDigit? (c : Char) : Option Nat :=
  (ndZeroCodes.find? (fun b => b ≤ c.toNat && c.toNat < b + 10)).map (fun b => c.toNat - b)

/-- Digits after the first one: each further digit may be preceded by a
single underscore separator (`int()` allows `_` between digits only —
never leading, trailing, or doubled). -/
def pyDigitsGo : List Char → Nat → Option Nat
  | [], acc => some acc
  | '_' :: c :: rest, acc =>
    match pyDigit? c with
    | some d => pyDigitsGo rest (acc * 10 + d)
    | none => none
  | ['_'], _ => none
  | c :: rest, acc =>
    match pyDigit? c with
    | some d => pyDigitsGo rest (acc * 10 + d)
    | none => none

/-- A non-empty Unicode digit sequence with optional single underscore
separators between digits. -/
def pyDigits : List Char → Option Nat
  | [] => none
  | c :: rest =>
    match pyDigit? c with
    | some d => pyDigitsGo rest d
    | none => none

/-- Strip `int()`-whitespace from both ends of the character sequence. -/
def pyStrip (cs : List Char) : List Char :=
  ((cs.dropWhile isPySpace).reverse.dropWhile isPySpace).reverse

/-- Model of `int(s)` for a group key, as used by `sorted(keys, key=int)`
at source line 174; `none` models the `ValueError` the source catches.
The accepted shape is Python's: optional whitespace on both ends, an
optional single `+` or `-` sign, then at least one Unicode decimal digit,
with single underscore separators permitted between digits.  (The
configurable many-thousand-digit conversion guard CPython added in 3.11
security releases postdates the repository and is not modelled.) -/
def pyInt (s : String) : Option Int :=
  match pyStrip s.data with
  | '-' :: rest => (pyDigits rest).map (fun n => -(n : Int))
  | '+' :: rest => (pyDigits rest).map (fun n => (n : Int))
  | l => (pyDigits l).map (fun n => (n : Int))

/-- Ordering of keys by their integer value (`sorted(keys, key=int)`);
only applied when every key parses, so the default is never compared. -/
def intKeyLe (a b : String) : Prop := (pyInt a).getD 0 ≤ (pyInt b).getD 0

instance : DecidableRel intKeyLe := fun a b => by unfold intKeyLe; infer_instance

/-- Code-point lexicographic comparison of character lists, the order
Python's `sorted` uses on strings. -/
def charsLe : List Char → List Char → Bool
  | [], _ => true
  | _ :: _, [] => false
  | a :: as, b :: bs => if a < b then true else if b < a then false else charsLe as bs

/-- Lexicographic ordering of keys (plain `sorted(keys)`). -/
def strKeyLe (a b : String) : Prop := charsLe a.data b.data = true

instance : DecidableRel strKeyLe := fun a b => by unfold strKeyLe; infer_instance

/-- The key-ordering step of `read_bron2_to_gmws` (source lines 170-176):
sort the group keys lexicographically, then — if every key parses as an
integer — replace that with the integer-valued sort (Python's `sorted` is
a stable sort; `List.insertionSort` is the stable sort used here). -/
def sortedKeys (keys : List String) : List String :=
  if keys.all (fun k => (pyInt k).isSome) then
    List.insertionSort intKeyLe keys
  else
    List.insertionSort strKeyLe keys

/-- Names of a group's children, in storage order (`hdfgroup.keys()`). -/
def childNames : Children → List String
  | .nil => []
  | .cons name _ rest => name :: childNames rest

/-- Decode one GMW group (source lines 180-183): parse its `History`,
`Tube` and `Well` children. -/
def parseGmw (g : HNode) : Except Err GMW :=
  match g with
  | .dset _ _ => .error (.typeError "cannot index a dataset with a name")
  | .grp ch _ => do
    let history ← getChild ch "History" >>= parseBronhdf
    let tube ← getChild ch "Tube" >>= parseBronhdf
    let well ← getChild ch "Well" >>= parseBronhdf
    .ok ⟨history, tube, well⟩

/-- Model of `read_bron2_to_gmws` (source lines 161-184): check the version, sort the
keys, decode each child group into a GMW, and return the insertion-ordered
key→GMW mapping (modelled as the association list in insertion order). -/
def readBron2ToGmws (root : Root) : Except Err (List (String × GMW)) := do
  checkBronVersion root
  let gkeys := sortedKeys (childNames root.children)
  gkeys.mapM (fun k => do
    let g ← getChild root.children k
    let gmw ← parseGmw g
    .ok (k, gmw))

/-! ### Concrete tables and stored nodes used by the claim witnesses -/

/-- Columns-layout of C6's positive witness: a nested group followed by a
three-element dataset. -/
def c6LayoutA : Children := Children.ofList
  [("nested", .grp .nil (some (.bstr "table"))),
   ("plain", .dset (.cons (.vint 1) (.cons (.vint 2) (.cons (.vint 3) .nil))) (some (.bstr "int64")))]

/-- Columns-layout of C6's negative witness: every column a nested group. -/
def c6LayoutB : Children := Children.ofList
  [("nested", .grp .nil (some (.bstr "table"))),
   ("nested2", .grp .nil (some (.bstr "table")))]

/-- The stored children of C8's witness: one real column `a`, an empty
stored `VariableDescriptions` array, a populated `VariableUnits` array. -/
def c8Children : Children := Children.ofList
  [("VariableNames", .dset (.cons (.vbytes "a") .nil) (some (.bstr "cellstr"))),
   ("VariableDescriptions", .dset .nil (some (.bstr "cellstr"))),
   ("VariableUnits", .dset (.cons (.vbytes "meters") .nil) (some (.bstr "cellstr"))),
   ("a", .dset (.cons (.vint 1) (.cons (.vint 2) .nil)) (some (.bstr "int64")))]

/-- The decoded table of C8's witness. -/
def c8Table : Table := .mk (.cons "a" (.cons (.vint 1) (.cons (.vint 2) .nil)) .nil) [""] ["meters"]

/-- Children of C10's witness layouts: a dataset column `a` carrying the
text-string tag `"int64"`, a nested column `n` carrying the text-string
tag `"table"` with one decodable empty-table element, and a group column
`g` carrying the non-table tag `b"cellstr"`. -/
def c10Children : Children := Children.ofList
  [("a", .dset (.cons (.vint 5) .nil) (some (.ustr "int64"))),
   ("n", .grp (Children.ofList
      [("Element1", .grp (Children.ofList (writeDfMetadata [] [] [])) (some (.bstr "table")))])
      (some (.ustr "table"))),
   ("g", .grp .nil (some (.bstr "cellstr")))]

/-- The stored form of an empty table, as the encoder writes it. -/
def emptyTableNode : HNode := .grp (Children.ofList (writeDfMetadata [] [] [])) (some (.bstr "table"))

/-- A GMW group whose three tables are all empty. -/
def emptyGmwNode : HNode := .grp (Children.ofList
  [("History", emptyTableNode), ("Tube", emptyTableNode), ("Well", emptyTableNode)]) none

/-- A version-2 root with integer-string keys stored in lexicographic order
`"1", "10", "2"`. -/
def c5Root : Root := ⟨some (2, 0), Children.ofList
  [("1", emptyGmwNode), ("10", emptyGmwNode), ("2", emptyGmwNode)]⟩

/-- Occurrence of a table as a row of a nested-table column of another. -/
def SubTableOf (t' t : Table) : Prop :=
  ∃ vs ∈ t.cols.valLists, Value.vtable t' ∈ vs.toList

/-- Well-formedness for the round-trip property: a table is either the
canonical empty table or has at least one column, is not the `Var1`
empty-table marker, carries exactly one description and one unit per
column, is rectangular (pandas enforces a common column length), has at
least one non-nested column (the schema's row-count assumption), and
nests only well-formed tables.  The claim's remaining conditions (unique
column names, homogeneous columns, consistent nesting) are not assumed
here: a table violating them cannot be encoded at all, so they are
subsumed by the `write_df` success hypothesis of the round-trip
theorem. -/
inductive WellFormedTable : Table → Prop where
  | empty : WellFormedTable (.mk .nil [] [])
  | table (cols : Cols) (vds vus : List String) (nrows : Nat) :
      cols ≠ .nil →
      cols.names ≠ ["Var1"] →
      vds.length = cols.names.length →
      vus.length = cols.names.length →
      (∀ vs ∈ cols.valLists, vs.toList.length = nrows) →
      (∃ vs ∈ cols.valLists, vs.toList.all (fun v => !(isTableVal v)) = true) →
      (∀ t', SubTableOf t' (.mk cols vds vus) → WellFormedTable t') →
      WellFormedTable (.mk cols vds vus)

/-- A table with one real int64 column that happens to be named `Var1`:
well-formed in the claim's sense (unique column names, homogeneous,
non-nested, non-empty, metadata aligned), yet not round-trippable. -/
def c1Marker : Table := .mk (.cons "Var1" (.cons (.vint 7) .nil) .nil) [""] [""]

/-- Inner table of the C1 witness. -/
def c1Inner : Table := .mk (.cons "a" (.cons (.vint 5) .nil) .nil) [""] [""]

/-- Outer table of the C1 witness: one scalar column and one nested-table
column holding `c1Inner`, with populated metadata. -/
def c1Nested : Table := .mk
  (.cons "n" (.cons (.vint 1) .nil)
    (.cons "sub" (.cons (.vtable c1Inner) .nil) .nil)) ["d1", "d2"] ["u1", "u2"]

/-! ## Supporting lemmas -/

theorem Children.find_ofList (l : List (String × HNode)) (key : String) :
    (Children.ofList l).find key = listFind l key := by
  induction l with
  | nil => rfl
  | cons p rest ih =>
    obtain ⟨name, node⟩ := p
    simp only [Children.ofList, Children.find, listFind, ih]

theorem listFind_append (a b : List (String × HNode)) (key : String) (h : key ∉ a.map Prod.fst) :
    listFind (a ++ b) key = listFind b key := by
  induction a with
  | nil => rfl
  | cons p rest ih =>
    obtain ⟨name, node⟩ := p
    simp only [List.map_cons, List.mem_cons, not_or] at h
    have hne : ¬ name = key := fun he => h.1 he.symm
    show (if name = key then some node else listFind (rest ++ b) key) = listFind b key
    rw [if_neg hne]
    exact ih h.2

theorem listFind_append_left (a b : List (String × HNode)) (key : String) (node : HNode)
    (h : listFind a key = some node) : listFind (a ++ b) key = some node := by
  induction a with
  | nil => simp [listFind] at h
  | cons p rest ih =>
    obtain ⟨name, n'⟩ := p
    by_cases he : name = key
    · simp only [listFind, if_pos he] at h
      simp only [List.cons_append, listFind, if_pos he, h]
    · simp only [listFind, if_neg he] at h
      simp only [List.cons_append, listFind, if_neg he]
      exact ih h

theorem listFind_mem_of_nodup (l : List (String × HNode)) (key : String) (node : HNode)
    (hmem : (key, node) ∈ l) (hnd : (l.map Prod.fst).Nodup) : listFind l key = some node := by
  induction l with
  | nil => simp at hmem
  | cons p rest ih =>
    obtain ⟨name, n'⟩ := p
    simp only [List.map_cons, List.nodup_cons] at hnd
    rcases List.mem_cons.mp hmem with h | h
    · cases h
      simp [listFind]
    · have hne : name ≠ key := by
        intro he
        subst he
        exact hnd.1 (List.mem_map.mpr ⟨(name, node), h, rfl⟩)
      simp only [listFind, if_neg hne]
      exact ih h hnd.2

theorem digitVal_digitChar {k : Nat} (h : k < 10) : digitVal (Nat.digitChar k) = k := by
  interval_cases k <;> decide

theorem valOfDigits_toDigitsCore : ∀ (f n : Nat) (ds : List Char), n < 10 ^ f →
    valOfDigits (Nat.toDigitsCore 10 f n ds) 0 = valOfDigits ds n := by
  intro f
  induction f with
  | zero => intro n ds h; simp only [pow_zero, Nat.lt_one_iff] at h; subst h; rfl
  | succ f ih =>
    intro n ds h
    rw [Nat.toDigitsCore]
    by_cases h0 : n / 10 = 0
    · simp only [h0, if_true]
      have hn : n < 10 := by omega
      have hmod : n % 10 = n := Nat.mod_eq_of_lt hn
      simp [valOfDigits, hmod, digitVal_digitChar hn]
    · simp only [h0, if_false]
      have hlt : n / 10 < 10 ^ f := by
        have h10 : (10:Nat) ^ (f+1) = 10 ^ f * 10 := by ring
        omega
      rw [ih (n / 10) _ hlt]
      have hm : n % 10 < 10 := Nat.mod_lt n (by norm_num)
      simp [valOfDigits, digitVal_digitChar hm]
      congr 1
      omega

theorem natToString_injective : ∀ m n : Nat, toString m = toString n → m = n := by
  intro m n h
  have hm : toString m = (Nat.toDigits 10 m).asString := rfl
  have hn : toString n = (Nat.toDigits 10 n).asString := rfl
  rw [hm, hn] at h
  have hd : Nat.toDigits 10 m = Nat.toDigits 10 n := by
    have := congrArg String.data h
    simpa [List.asString] using this
  have h1 : valOfDigits (Nat.toDigits 10 m) 0 = m := by
    have : m < 10 ^ (m + 1) :=
      lt_of_lt_of_le (Nat.lt_pow_self (by norm_num) m) (Nat.pow_le_pow_right (by norm_num) (by omega))
    simpa [valOfDigits] using valOfDigits_toDigitsCore (m+1) m [] this
  have h2 : valOfDigits (Nat.toDigits 10 n) 0 = n := by
    have : n < 10 ^ (n + 1) :=
      lt_of_lt_of_le (Nat.lt_pow_self (by norm_num) n) (Nat.pow_le_pow_right (by norm_num) (by omega))
    simpa [valOfDigits] using valOfDigits_toDigitsCore (n+1) n [] this
  rw [← h1, hd, h2]

theorem elementKey_injective : Function.Injective elementKey := by
  intro i j h
  apply natToString_injective
  have hd := congrArg String.data h
  simp only [elementKey, String.data_append] at hd
  exact String.ext (List.append_cancel_left hd)

theorem charsLe_total : ∀ a b : List Char, charsLe a b ∨ charsLe b a := by
  intro a
  induction a with
  | nil => intro b; left; rfl
  | cons x xs ih =>
    intro b
    cases b with
    | nil => right; rfl
    | cons y ys =>
      rcases lt_trichotomy x y with h | h | h
      · left; simp [charsLe, h]
      · subst h
        rcases ih ys with h2 | h2
        · left; simp [charsLe, lt_irrefl, h2]
        · right; simp [charsLe, lt_irrefl, h2]
      · right; simp [charsLe, h]

theorem charsLe_trans : ∀ a b c : List Char, charsLe a b → charsLe b c → charsLe a c := by
  intro a
  induction a with
  | nil => intro b c _ _; rfl
  | cons x xs ih =>
    intro b c hab hbc
    cases b with
    | nil => simp [charsLe] at hab
    | cons y ys =>
      cases c with
      | nil => simp [charsLe] at hbc
      | cons z zs =>
        simp only [charsLe] at hab hbc ⊢
        rcases lt_trichotomy x y with hxy | hxy | hxy
        · rcases lt_trichotomy y z with hyz | hyz | hyz
          · simp [lt_trans hxy hyz]
          · subst hyz; simp [hxy]
          · simp [asymm hyz, hyz] at hbc
        · subst hxy
          rcases lt_trichotomy x z with hyz | hyz | hyz
          · simp [hyz]
          · subst hyz
            simp only [lt_irrefl, if_false] at hab hbc ⊢
            exact ih ys zs hab hbc
          · simp [asymm hyz, hyz] at hbc
        · simp [asymm hxy, hxy] at hab

/-! ## Claim C4: version gating -/

/-- C4: decoding a root with no `BRON_VERSION` attribute fails with the
missing-version `KeyError`; a stored major version different from the
codec's supported major version 2 fails with `NotImplementedError`; and a
root with major version 2 passes the version gate whatever its minor
component is — the gate (`checkBronVersion`) being the first step of
`readBron2ToGmws`, before any table is decoded. -/
theorem claim_C4_version_gating :
    (∀ ch : Children, readBron2ToGmws ⟨none, ch⟩ =
        .error (.keyError "Cannot locate attribute BRON_VERSION (Very old bron-file?)")) ∧
    (∀ (maj minr : Int) (ch : Children), maj ≠ 2 →
        readBron2ToGmws ⟨some (maj, minr), ch⟩ =
        .error (.notImplementedError "The HDF5-file has an unsupported BRON_VERSION major version")) ∧
    (∀ (minr : Int) (ch : Children), checkBronVersion ⟨some (2, minr), ch⟩ = .ok ()) := by
  refine ⟨fun ch => ?_, fun maj minr ch hne => ?_, fun minr ch => ?_⟩
  · simp [readBron2ToGmws, checkBronVersion, Bind.bind, Except.bind]
  · simp [readBron2ToGmws, checkBronVersion, BRON_VERSION, hne, Bind.bind, Except.bind]
  · simp [checkBronVersion, BRON_VERSION]

/-- Witness for C4 at concrete roots: major 3 is rejected, a missing
attribute is rejected, and major 2 with a nonzero minor passes the gate. -/
theorem claim_C4_version_gating_witness :
    readBron2ToGmws ⟨some (3, 5), .nil⟩ =
      .error (.notImplementedError "The HDF5-file has an unsupported BRON_VERSION major version") ∧
    readBron2ToGmws ⟨none, .nil⟩ =
      .error (.keyError "Cannot locate attribute BRON_VERSION (Very old bron-file?)") ∧
    checkBronVersion ⟨some (2, 7), .nil⟩ = .ok () :=
  ⟨claim_C4_version_gating.2.1 3 5 .nil (by decide),
   claim_C4_version_gating.1 .nil,
   claim_C4_version_gating.2.2 7 .nil⟩

/-! ## Claim C2: the empty-table marker -/

/-- C2: whenever the stored `VariableNames` dataset is empty or consists of
the single sentinel entry `b"Var1"`, `parse_bronhdf` returns the canonical
empty table (zero columns, empty metadata), whatever else the node holds —
its other children, its metadata datasets, and any real column data
(including a legitimate single data column named `Var1`) are never
consulted, since the result is fixed by the `VariableNames` array alone. -/
theorem claim_C2_empty_marker :
    ∀ (ch : Children) (mt : Option MLType) (vals : Vals) (a : Option MLType),
      ch.find "VariableNames" = some (.dset vals a) →
      (vals.toList = [] ∨ vals.toList = [Value.vbytes "Var1"]) →
      parseBronhdf (.grp ch mt) = .ok emptyTable := by
  intro ch mt vals a hfind hvals
  show parseF ((HNode.grp ch mt).size + 1) (.grp ch mt) = .ok emptyTable
  rw [parseF, parseBody]
  simp only [getChild, hfind, dsetData, Bind.bind, Except.bind]
  rcases hvals with h | h
  · simp [h]
  · simp [h]

/-- Witness for C2: a node whose `VariableNames` is the `Var1` sentinel but
which carries populated metadata and a real `Var1` data column still
decodes to the canonical empty table. -/
theorem claim_C2_empty_marker_witness :
    parseBronhdf (.grp (Children.ofList
      [("VariableNames", .dset (.cons (.vbytes "Var1") .nil) (some (.bstr "cellstr"))),
       ("VariableDescriptions", .dset (.cons (.vbytes "a real description") .nil) (some (.bstr "cellstr"))),
       ("VariableUnits", .dset (.cons (.vbytes "meters") .nil) (some (.bstr "cellstr"))),
       ("Var1", .dset (.cons (.vint 7) .nil) (some (.bstr "int64")))]) (some (.bstr "table")))
      = .ok emptyTable :=
  claim_C2_empty_marker _ (some (.bstr "table")) (.cons (.vbytes "Var1") .nil)
    (some (.bstr "cellstr")) (by decide) (by decide)

/-! ## Claim C6: row-count determination and the bad-datamodel failure -/

/-- C6: `parse_bronhdf` takes the row count from the first column (in
`VariableNames` order) stored as a plain dataset — a dataset head yields
its length, a group head is skipped; a missing column propagates the
container's `KeyError`; and when every column is stored as a nested-table
group, the result is the explicit bad-datamodel `Exception`, which is a
different error from the generic lookup `KeyError`. -/
theorem claim_C6_row_count :
    (∀ (ch : Children) (cn : String) (rest : List String) (vs : Vals) (a : Option MLType),
        ch.find cn = some (.dset vs a) →
        findNrows ch (cn :: rest) = .ok vs.toList.length) ∧
    (∀ (ch : Children) (cn : String) (rest : List String) (ccs : Children) (a : Option MLType),
        ch.find cn = some (.grp ccs a) →
        findNrows ch (cn :: rest) = findNrows ch rest) ∧
    (∀ (ch : Children) (colnames : List String),
        (∀ cn ∈ colnames, ∃ ccs a, ch.find cn = some (.grp ccs a)) →
        findNrows ch colnames = .error (.exception badDatamodelMsg)) ∧
    (∀ m : String, Err.exception badDatamodelMsg ≠ Err.keyError m) := by
  refine ⟨fun ch cn rest vs a hfind => ?_, fun ch cn rest ccs a hfind => ?_, fun ch colnames hall => ?_, fun m h => by cases h⟩
  · simp [findNrows, getChild, hfind, Bind.bind, Except.bind]
  · simp [findNrows, getChild, hfind, Bind.bind, Except.bind]
  · induction colnames with
    | nil => rfl
    | cons cn rest ih =>
      obtain ⟨ccs, a, hfind⟩ := hall cn (by simp)
      simp only [findNrows, getChild, hfind, Bind.bind, Except.bind]
      exact ih (fun c hc => hall c (by simp [hc]))

/-- Witness for C6: a two-column layout where the first column is a nested
group and the second a three-element dataset yields row count 3; a layout
where both columns are groups yields the bad-datamodel error. -/
theorem claim_C6_row_count_witness :
    findNrows c6LayoutA ["nested", "plain"] = .ok 3 ∧
    findNrows c6LayoutB ["nested", "nested2"] = .error (.exception badDatamodelMsg) ∧
    Err.exception badDatamodelMsg ≠ Err.keyError "VariableNames" := by
  refine ⟨?_, ?_, claim_C6_row_count.2.2.2 "VariableNames"⟩
  · have h1 := claim_C6_row_count.2.1 c6LayoutA "nested" ["plain"] Children.nil
      (some (.bstr "table")) (by decide)
    have h2 := claim_C6_row_count.1 c6LayoutA "plain" []
      (Vals.cons (.vint 1) (.cons (.vint 2) (.cons (.vint 3) .nil))) (some (.bstr "int64")) (by decide)
    rw [h1, h2]
    decide
  · refine claim_C6_row_count.2.2.1 c6LayoutB ["nested", "nested2"] ?_
    intro cn hcn
    fin_cases hcn
    · exact ⟨.nil, some (.bstr "table"), by decide⟩
    · exact ⟨.nil, some (.bstr "table"), by decide⟩

/-! ## Claims C3 and C7: the Type Tagger -/

theorem seriesDtypeName_cases (vs : List Value) (dn : String) (h : seriesDtypeName vs = some dn) :
    dn = "int64" ∨ dn = "float64" ∨ dn = "bool" := by
  cases vs with
  | nil => simp [seriesDtypeName] at h
  | cons v rest =>
    simp only [seriesDtypeName] at h
    split at h
    · exact Or.inl (Option.some_injective _ h).symm
    · split at h
      · exact Or.inr (Or.inl (Option.some_injective _ h).symm)
      · split at h
        · exact Or.inr (Or.inr (Option.some_injective _ h).symm)
        · cases h

theorem npDtypeName_cases (v : Value) :
    npDtypeName v = "int64" ∨ npDtypeName v = "float64" ∨ npDtypeName v = "bool" ∨
    npDtypeName v = "bytes" ∨ npDtypeName v = "object" := by
  cases v <;> simp [npDtypeName]

/-- The tag is `"table"` exactly when some cell is a nested table: the
source tests `any(...)`, and no other branch of the tagger can produce the
string `"table"`. -/
theorem infer_table_iff (vs : List Value) :
    inferColumnMatlabType vs = .ok "table" ↔ vs.any isTableVal = true := by
  cases hany : vs.any isTableVal with
  | true => simp [inferColumnMatlabType, hany, Except.map]
  | false =>
    simp only [Bool.false_eq_true, iff_false]
    intro h
    simp only [inferColumnMatlabType, hany, Bool.false_eq_true, if_false] at h
    rcases hdt : seriesDtypeName vs with _ | dn <;> rw [hdt] at h
    · by_cases hlen : ((vs.map npDtypeName).dedup).length = 1
      · rw [if_pos hlen] at h
        rcases hvs : vs with _ | ⟨v, rest⟩
        · rw [hvs] at h
          simp [Except.map] at h
        · rw [hvs] at h
          simp only [Except.map] at h
          rcases npDtypeName_cases v with hh | hh | hh | hh | hh <;> rw [hh] at h <;> simp at h
      · rw [if_neg hlen] at h
        simp [Except.map] at h
    · simp only [Except.map] at h
      rcases seriesDtypeName_cases vs dn hdt with hh | hh | hh <;> rw [hh] at h <;> simp at h

/-- A column with at least one non-table cell cannot be written as a
nested-table column: the recursive `write_df` of that row fails the way
Python fails on a non-DataFrame (so the enclosing encode aborts). -/
theorem writeElems_error_of_mixed :
    ∀ (vals : Vals) (i : Nat), (∃ v ∈ vals.toList, isTableVal v = false) →
      ∃ e, writeElems i vals = .error e
  | .nil, _, h => by simp [Vals.toList] at h
  | .cons (.vint k) rest, i, _ =>
      ⟨.attributeError "object has no attribute columns", by simp [writeElems, Bind.bind, Except.bind]⟩
  | .cons (.vfloat k) rest, i, _ =>
      ⟨.attributeError "object has no attribute columns", by simp [writeElems, Bind.bind, Except.bind]⟩
  | .cons (.vbool k) rest, i, _ =>
      ⟨.attributeError "object has no attribute columns", by simp [writeElems, Bind.bind, Except.bind]⟩
  | .cons (.vbytes k) rest, i, _ =>
      ⟨.attributeError "object has no attribute columns", by simp [writeElems, Bind.bind, Except.bind]⟩
  | .cons (.vtable t) rest, i, h => by
      have hrest : ∃ w ∈ rest.toList, isTableVal w = false := by
        rcases h with ⟨w, hmem, hw⟩
        rcases List.mem_cons.mp hmem with hm | hm
        · subst hm
          simp [isTableVal] at hw
        · exact ⟨w, hm, hw⟩
      obtain ⟨e, he⟩ := writeElems_error_of_mixed rest (i + 1) hrest
      rcases hdf : writeDf t with e' | n
      · exact ⟨e', by simp [writeElems, hdf, Bind.bind, Except.bind]⟩
      · exact ⟨e, by simp [writeElems, hdf, he, Bind.bind, Except.bind]⟩

/-- Counterexample to C3 as stated: a column mixing a nested table with a
plain integer is tagged `"table"` (because the source tests `any`, not
`all`) instead of failing with a type-inference error. -/
theorem claim_C3_counterexample :
    inferColumnMatlabType [.vtable emptyTable, .vint 1] = .ok "table" := by decide

/-- C3 (amended): the Type Tagger returns `"table"` exactly when at least
one element of the column is a nested Table — in particular a column
mixing nested Tables with non-Table values is tagged `"table"` without a
type-inference error; the encode of such a column still aborts, but later,
when the non-Table row is written by the recursive `write_df`. -/
theorem claim_C3_amended :
    (∀ vs : List Value, inferColumnMatlabType vs = .ok "table" ↔ vs.any isTableVal = true) ∧
    (∀ (vals : Vals) (i : Nat), (∃ v ∈ vals.toList, isTableVal v = false) →
      ∃ e, writeElems i vals = .error e) :=
  ⟨infer_table_iff, fun vals i h => writeElems_error_of_mixed vals i h⟩

/-- Witness for the amended C3 at the mixed column `[table, 1]`: it is
tagged `"table"`, and writing its rows fails. -/
theorem claim_C3_amended_witness :
    inferColumnMatlabType [.vtable emptyTable, .vint 1] = .ok "table" ∧
    ∃ e, writeElems 1 (.cons (.vtable emptyTable) (.cons (.vint 1) .nil)) = .error e :=
  ⟨(claim_C3_amended.1 [.vtable emptyTable, .vint 1]).mpr (by decide),
   claim_C3_amended.2 (.cons (.vtable emptyTable) (.cons (.vint 1) .nil)) 1
     ⟨.vint 1, by decide, by decide⟩⟩

/-- C7: over a column of object dtype with no nested tables (the tagger's
third branch), tagging is determined by the set of distinct runtime dtypes
of the cells: exactly one distinct dtype succeeds and returns its name,
with `"bytes"` renamed `"cellstr"`; two or more distinct dtypes raise the
inference `ValueError` (whose message in the source interpolates the
offending column); and tagging is a pure function, so tagging the same
column twice yields the same tag. -/
theorem claim_C7_object_column_tagging :
    ∀ vs : List Value, vs.any isTableVal = false → seriesDtypeName vs = none →
      ((∀ t, (vs.map npDtypeName).dedup = [t] →
          inferColumnMatlabType vs = .ok (if t = "bytes" then "cellstr" else t)) ∧
       (1 < (vs.map npDtypeName).dedup.length →
          inferColumnMatlabType vs = .error (.valueError inferErrorMsg)) ∧
       inferColumnMatlabType vs = inferColumnMatlabType vs) := by
  intro vs hany hdt
  refine ⟨fun t hded => ?_, fun hlen => ?_, rfl⟩
  · rcases hvs : vs with _ | ⟨v, rest⟩
    · subst hvs
      simp [List.dedup_nil] at hded
    · subst hvs
      have hv : npDtypeName v = t := by
        have hmem : npDtypeName v ∈ ((v :: rest).map npDtypeName).dedup := by
          rw [List.mem_dedup]
          exact List.mem_map_of_mem npDtypeName (by simp)
        rw [hded] at hmem
        simpa using hmem
      have hlen1 : ((v :: rest).map npDtypeName).dedup.length = 1 := by rw [hded]; rfl
      simp only [inferColumnMatlabType, hany, Bool.false_eq_true, if_false, hdt]
      rw [if_pos hlen1]
      simp [Except.map, hv]
  · have hne : ((vs.map npDtypeName).dedup).length ≠ 1 := by omega
    simp only [inferColumnMatlabType, hany, Bool.false_eq_true, if_false, hdt]
    rw [if_neg hne]
    simp [Except.map]

/-- Witness for C7: an all-bytes column is tagged `"cellstr"`, and a column
mixing an int with a bytes cell raises the inference error. -/
theorem claim_C7_object_column_tagging_witness :
    inferColumnMatlabType [.vbytes "x", .vbytes "y"] = .ok "cellstr" ∧
    inferColumnMatlabType [.vint 1, .vbytes "x"] = .error (.valueError inferErrorMsg) ∧
    inferColumnMatlabType [.vbytes "x", .vbytes "y"] = inferColumnMatlabType [.vbytes "x", .vbytes "y"] := by
  refine ⟨?_, ?_, (claim_C7_object_column_tagging [.vbytes "x", .vbytes "y"] (by decide) (by decide)).2.2⟩
  · have h := (claim_C7_object_column_tagging [.vbytes "x", .vbytes "y"] (by decide) (by decide)).1
      "bytes" (by decide)
    simpa using h
  · exact (claim_C7_object_column_tagging [.vint 1, .vbytes "x"] (by decide) (by decide)).2.1 (by decide)

/-! ## Claim C8: synthesis of missing metadata -/

theorem exceptBind_ok {ε α β : Type} {x : Except ε α} {f : α → Except ε β} {b : β}
    (h : (x >>= f) = .ok b) : ∃ a, x = .ok a ∧ f a = .ok b := by
  rcases x with e | a
  · simp [Bind.bind, Except.bind] at h
  · exact ⟨a, rfl, by simpa [Bind.bind, Except.bind] using h⟩

theorem parseColsGo_length (rec : HNode → Except Err Table) (ch : Children) (nrows : Nat) :
    ∀ (names : List String) (cols : Cols),
      parseColsGo rec ch nrows names = .ok cols → cols.names.length = names.length := by
  intro names
  induction names with
  | nil =>
    intro cols h
    simp only [parseColsGo] at h
    cases h
    rfl
  | cons cn rest ih =>
    intro cols h
    rw [parseColsGo] at h
    obtain ⟨colnode, hg, h⟩ := exceptBind_ok h
    obtain ⟨ml, hm, h⟩ := exceptBind_ok h
    obtain ⟨vals, hv, h⟩ := exceptBind_ok h
    obtain ⟨restCols, hr, h⟩ := exceptBind_ok h
    cases h
    simp [Cols.names, ih restCols hr]

/-- C8: if a non-empty table decodes successfully and its stored
`VariableDescriptions` (resp. `VariableUnits`) dataset is empty, the
decoded table carries one empty byte-string per column in its place, so
the reconstructed metadata align 1:1 with the columns. -/
theorem claim_C8_metadata_synthesis :
    ∀ (ch : Children) (mt : Option MLType) (t : Table),
      parseBronhdf (.grp ch mt) = .ok t → t.cols ≠ .nil →
      ((∀ a, ch.find "VariableDescriptions" = some (.dset .nil a) →
          t.vds = List.replicate t.cols.names.length "") ∧
       (∀ a, ch.find "VariableUnits" = some (.dset .nil a) →
          t.vus = List.replicate t.cols.names.length "")) := by
  intro ch mt t hparse hne
  have hbody : parseBody (parseF (HNode.grp ch mt).size) (.grp ch mt) = .ok t := hparse
  rw [parseBody] at hbody
  obtain ⟨vnNode, hg, hbody⟩ := exceptBind_ok hbody
  obtain ⟨vnData, hd, hbody⟩ := exceptBind_ok hbody
  by_cases hsent : vnData.toList.length = 0 ∨
      (vnData.toList.length = 1 ∧ vnData.toList.head? = some (Value.vbytes "Var1"))
  · rw [if_pos hsent] at hbody
    cases hbody
    cases hne rfl
  · rw [if_neg hsent] at hbody
    obtain ⟨colnames, hcn, hbody⟩ := exceptBind_ok hbody
    obtain ⟨vds, hvds, hbody⟩ := exceptBind_ok hbody
    obtain ⟨vus, hvus, hbody⟩ := exceptBind_ok hbody
    obtain ⟨nrows, hnr, hbody⟩ := exceptBind_ok hbody
    obtain ⟨cols, hcols, hbody⟩ := exceptBind_ok hbody
    cases hbody
    have hlen : (Table.mk cols vds vus).cols.names.length = colnames.length :=
      parseColsGo_length _ ch nrows colnames cols hcols
    constructor
    · intro a hfind
      have : readMetadataArray ch "VariableDescriptions" colnames.length =
          .ok (List.replicate colnames.length "") := by
        simp [readMetadataArray, getChild, hfind, dsetData, Vals.toList, Bind.bind, Except.bind]
      rw [this] at hvds
      cases hvds
      rw [hlen]
      rfl
    · intro a hfind
      have : readMetadataArray ch "VariableUnits" colnames.length =
          .ok (List.replicate colnames.length "") := by
        simp [readMetadataArray, getChild, hfind, dsetData, Vals.toList, Bind.bind, Except.bind]
      rw [this] at hvus
      cases hvus
      rw [hlen]
      rfl

/-- Witness for C8: decoding the witness node succeeds with one synthesized
empty description per column, while the stored units survive unchanged. -/
theorem claim_C8_metadata_synthesis_witness :
    parseBronhdf (.grp c8Children (some (.bstr "table"))) = .ok c8Table ∧
    c8Table.vds = List.replicate c8Table.cols.names.length "" := by
  refine ⟨by decide, ?_⟩
  exact (claim_C8_metadata_synthesis c8Children (some (.bstr "table")) c8Table
      (by decide) (by decide)).1 (some (.bstr "cellstr")) (by decide)

/-! ## Claim C10: dispatch on the stored `matlab_type` tag -/

/-- C10: while decoding a column, `parse_bronhdf` takes the nested-table
path exactly when the stored `matlab_type` attribute is `b"table"` or
`"table"`: with any other tag the column node is sliced verbatim as a
dataset (succeeding with the stored values on a dataset of the right
length, failing with the slice `TypeError` on a group), and with the table
tag in either form the `Element…` children are decoded (failing with the
index `TypeError` when the node is a plain dataset). -/
theorem claim_C10_tag_dispatch :
    ∀ (rec : HNode → Except Err Table) (ch : Children) (nrows : Nat) (cn : String)
      (rest : List String),
      ((∀ (vs : Vals) (m : MLType), ch.find cn = some (.dset vs (some m)) →
          m ≠ .bstr "table" → m ≠ .ustr "table" → vs.toList.length = nrows →
          parseColsGo rec ch nrows (cn :: rest) =
            (parseColsGo rec ch nrows rest).map (Cols.cons cn vs)) ∧
       (∀ (ccs : Children) (m : MLType), ch.find cn = some (.grp ccs (some m)) →
          (m = .bstr "table" ∨ m = .ustr "table") →
          parseColsGo rec ch nrows (cn :: rest) =
            (parseElemsGo rec ccs 1 nrows) >>= (fun vals =>
              (parseColsGo rec ch nrows rest).map (Cols.cons cn vals))) ∧
       (∀ (ccs : Children) (m : MLType), ch.find cn = some (.grp ccs (some m)) →
          m ≠ .bstr "table" → m ≠ .ustr "table" →
          parseColsGo rec ch nrows (cn :: rest) = .error (.typeError "cannot slice a group")) ∧
       (∀ (vs : Vals) (m : MLType), ch.find cn = some (.dset vs (some m)) →
          (m = .bstr "table" ∨ m = .ustr "table") →
          parseColsGo rec ch nrows (cn :: rest) =
            .error (.typeError "cannot index a dataset with an element name"))) := by
  intro rec ch nrows cn rest
  refine ⟨fun vs m hfind hb hu hlen => ?_, fun ccs m hfind hm => ?_,
    fun ccs m hfind hb hu => ?_, fun vs m hfind hm => ?_⟩
  · rw [parseColsGo]
    simp only [getChild, hfind, attrMatlabType, Bind.bind, Except.bind]
    rw [readColumnValues, if_pos ⟨hb, hu⟩]
    simp only [dsetData, Bind.bind, Except.bind, if_pos hlen]
    cases parseColsGo rec ch nrows rest <;> simp [Except.map]
  · rw [parseColsGo]
    simp only [getChild, hfind, attrMatlabType, Bind.bind, Except.bind]
    have hcond : ¬ (m ≠ MLType.bstr "table" ∧ m ≠ MLType.ustr "table") := by
      rcases hm with h | h <;> simp [h]
    simp only [readColumnValues, if_neg hcond, Bind.bind, Except.bind]
    cases parseElemsGo rec ccs 1 nrows with
    | error e => rfl
    | ok vals => cases parseColsGo rec ch nrows rest <;> rfl
  · rw [parseColsGo]
    simp only [getChild, hfind, attrMatlabType, Bind.bind, Except.bind]
    rw [readColumnValues, if_pos ⟨hb, hu⟩]
    simp [dsetData, Bind.bind, Except.bind]
  · rw [parseColsGo]
    simp only [getChild, hfind, attrMatlabType, Bind.bind, Except.bind]
    have hcond : ¬ (m ≠ MLType.bstr "table" ∧ m ≠ MLType.ustr "table") := by
      rcases hm with h | h <;> simp [h]
    simp only [readColumnValues, if_neg hcond, Bind.bind, Except.bind]

/-- Witness for C10: the `"int64"`-tagged dataset is read verbatim, the
`"table"`-tagged group in text-string form is decoded through its
`Element1` child, and the `b"cellstr"`-tagged group fails the verbatim
slice. -/
theorem claim_C10_tag_dispatch_witness :
    parseColsGo parseBronhdf c10Children 1 ["a"] =
      (parseColsGo parseBronhdf c10Children 1 []).map (Cols.cons "a" (.cons (.vint 5) .nil)) ∧
    parseColsGo parseBronhdf c10Children 1 ["n"] =
      (parseElemsGo parseBronhdf (Children.ofList
          [("Element1", .grp (Children.ofList (writeDfMetadata [] [] [])) (some (.bstr "table")))])
        1 1) >>= (fun vals => (parseColsGo parseBronhdf c10Children 1 []).map (Cols.cons "n" vals)) ∧
    parseColsGo parseBronhdf c10Children 1 ["g"] = .error (.typeError "cannot slice a group") := by
  refine ⟨?_, ?_, ?_⟩
  · exact (claim_C10_tag_dispatch parseBronhdf c10Children 1 "a" []).1
      (.cons (.vint 5) .nil) (.ustr "int64") (by decide) (by decide) (by decide) (by decide)
  · exact (claim_C10_tag_dispatch parseBronhdf c10Children 1 "n" []).2.1
      _ (.ustr "table") (by decide) (Or.inr rfl)
  · exact (claim_C10_tag_dispatch parseBronhdf c10Children 1 "g" []).2.2.1
      .nil (.bstr "cellstr") (by decide) (by decide) (by decide)

/-! ## Claim C9: one-based `Element{i}` naming -/

theorem writeElems_names : ∀ (vals : Vals) (i : Nat) (l : List (String × HNode)),
    writeElems i vals = .ok l →
    l.map Prod.fst = (List.range vals.toList.length).map (fun k => elementKey (i + k))
  | .nil, i, l, h => by
    simp only [writeElems] at h
    cases h
    simp [Vals.toList]
  | .cons (.vint k) rest, i, l, h => by
    simp [writeElems, Bind.bind, Except.bind] at h
  | .cons (.vfloat k) rest, i, l, h => by
    simp [writeElems, Bind.bind, Except.bind] at h
  | .cons (.vbool k) rest, i, l, h => by
    simp [writeElems, Bind.bind, Except.bind] at h
  | .cons (.vbytes k) rest, i, l, h => by
    simp [writeElems, Bind.bind, Except.bind] at h
  | .cons (.vtable t) rest, i, l, h => by
    simp only [writeElems] at h
    obtain ⟨node, hn, h⟩ := exceptBind_ok h
    obtain ⟨tail, ht, h⟩ := exceptBind_ok h
    cases h
    have ih := writeElems_names rest (i + 1) tail ht
    have hlen : (Vals.cons (Value.vtable t) rest).toList.length = rest.toList.length + 1 := by
      simp [Vals.toList]
    rw [List.map_cons, ih, hlen, List.range_succ_eq_map, List.map_cons, List.map_map]
    have h0 : elementKey (i + 0) = elementKey i := by rw [Nat.add_zero]
    rw [h0]
    congr 1
    apply List.map_congr_left
    intro k _
    simp only [Function.comp_apply]
    congr 1
    omega

theorem parseElemsGo_range' (rec : HNode → Except Err Table) (ccs : Children) :
    ∀ (n i : Nat),
      parseElemsGo rec ccs i n =
        (((List.range' i n).mapM (fun j =>
            (getChild ccs (elementKey j)) >>= (fun e => (rec e).map Value.vtable))).map
          Vals.ofList) := by
  intro n
  induction n with
  | zero => intro i; rfl
  | succ n ih =>
    intro i
    rw [parseElemsGo, List.range'_succ, List.mapM_cons]
    rcases hg : getChild ccs (elementKey i) with e | node
    · simp [hg, Bind.bind, Except.bind, Except.map]
    · rcases hr : rec node with e2 | t
      · simp [hg, hr, Bind.bind, Except.bind, Except.map]
      · rw [ih (i + 1)]
        rcases hm : (List.range' (i + 1) n).mapM (fun j =>
            (getChild ccs (elementKey j)) >>= (fun e => (rec e).map Value.vtable)) with e3 | ts
        · simp [hg, hr, hm, Bind.bind, Except.bind, Except.map]
        · simp only [hg, hr, hm, Bind.bind, Except.bind, Except.map]
          rfl

/-- C9: nested-table columns are persisted with one-based ordinal child
names — the encoder writes the n row tables of a nested column as children
named `Element1` through `Element<n>` in row order, the decoder reads
exactly the children `Element1` through `Element<row count>` in ascending
one-based order (reconstructing the rows in that order), and the name
`Element0` is never among the written names nor among the read names. -/
theorem claim_C9_elements_one_based :
    (∀ (vals : Vals) (l : List (String × HNode)), writeElems 1 vals = .ok l →
        l.map Prod.fst = (List.range vals.toList.length).map (fun k => elementKey (k + 1))) ∧
    (∀ (rec : HNode → Except Err Table) (ccs : Children) (n : Nat),
        parseElemsGo rec ccs 1 n =
          (((List.range' 1 n).mapM (fun j =>
              (getChild ccs (elementKey j)) >>= (fun e => (rec e).map Value.vtable))).map
            Vals.ofList)) ∧
    (∀ i : Nat, 1 ≤ i → elementKey i ≠ elementKey 0) := by
  refine ⟨fun vals l h => ?_, fun rec ccs n => parseElemsGo_range' rec ccs n 1, fun i h1 h => ?_⟩
  · rw [writeElems_names vals 1 l h]
    apply List.map_congr_left
    intro k _
    congr 1
    omega
  · have := elementKey_injective h
    omega

/-- Witness for C9: a nested column of two (empty) row tables is written as
children `Element1`, `Element2`, in that order. -/
theorem claim_C9_elements_one_based_witness :
    writeElems 1 (.cons (.vtable emptyTable) (.cons (.vtable emptyTable) .nil)) =
      .ok [("Element1", .grp (Children.ofList (writeDfMetadata [] [] [])) (some (.bstr "table"))),
           ("Element2", .grp (Children.ofList (writeDfMetadata [] [] [])) (some (.bstr "table")))] ∧
    ([("Element1", HNode.grp (Children.ofList (writeDfMetadata [] [] [])) (some (.bstr "table"))),
      ("Element2", HNode.grp (Children.ofList (writeDfMetadata [] [] [])) (some (.bstr "table")))].map
        Prod.fst) =
      (List.range (Vals.cons (Value.vtable emptyTable)
          (Vals.cons (Value.vtable emptyTable) Vals.nil)).toList.length).map
        (fun k => elementKey (k + 1)) ∧
    elementKey 1 ≠ elementKey 0 := by
  refine ⟨by decide, ?_, claim_C9_elements_one_based.2.2 1 (by decide)⟩
  exact claim_C9_elements_one_based.1
    (.cons (.vtable emptyTable) (.cons (.vtable emptyTable) .nil)) _ (by decide)

/-! ## Claim C5: decode order of GMW collection keys -/

theorem mapM_gmw_keys (ch : Children) : ∀ (ks : List String) (gs : List (String × GMW)),
    (ks.mapM (fun k => do
      let g ← getChild ch k
      let gmw ← parseGmw g
      Except.ok (k, gmw))) = .ok gs → gs.map Prod.fst = ks := by
  intro ks
  induction ks with
  | nil =>
    intro gs h
    rw [List.mapM_nil] at h
    cases h
    rfl
  | cons k ks ih =>
    intro gs h
    rw [List.mapM_cons] at h
    obtain ⟨p, hp, h⟩ := exceptBind_ok h
    obtain ⟨rest, hrest, h⟩ := exceptBind_ok h
    obtain ⟨g, hg, hp⟩ := exceptBind_ok hp
    obtain ⟨gmw, hgmw, hp⟩ := exceptBind_ok hp
    cases hp
    cases h
    simp [ih rest hrest]

/-- C5: when every child key of the root parses as an integer, the keys are
processed in ascending integer order; when some key does not parse, they
are processed in ascending code-point-lexicographic order; in both cases
the processed sequence is a permutation of the stored keys, and a
successful decode returns its entries keyed by the original string keys in
exactly that order. -/
theorem claim_C5_key_ordering :
    (∀ keys : List String, (∀ k ∈ keys, (pyInt k).isSome = true) →
        List.Pairwise intKeyLe (sortedKeys keys) ∧ List.Perm (sortedKeys keys) keys) ∧
    (∀ keys : List String, ¬ (∀ k ∈ keys, (pyInt k).isSome = true) →
        List.Pairwise strKeyLe (sortedKeys keys) ∧ List.Perm (sortedKeys keys) keys) ∧
    (∀ (root : Root) (gs : List (String × GMW)), readBron2ToGmws root = .ok gs →
        gs.map Prod.fst = sortedKeys (childNames root.children)) := by
  refine ⟨fun keys hall => ?_, fun keys hnall => ?_, fun root gs h => ?_⟩
  · have hcond : keys.all (fun k => (pyInt k).isSome) = true := by
      rw [List.all_eq_true]
      exact hall
    rw [sortedKeys, if_pos hcond]
    haveI : IsTotal String intKeyLe := ⟨fun a b => le_total ((pyInt a).getD 0) ((pyInt b).getD 0)⟩
    haveI : IsTrans String intKeyLe := ⟨fun _ _ _ hx hy => le_trans hx hy⟩
    exact ⟨List.sorted_insertionSort intKeyLe keys, List.perm_insertionSort intKeyLe keys⟩
  · have hcond : ¬ keys.all (fun k => (pyInt k).isSome) = true := by
      rw [List.all_eq_true]
      exact hnall
    rw [sortedKeys, if_neg hcond]
    haveI : IsTotal String strKeyLe := ⟨fun a b => charsLe_total a.data b.data⟩
    haveI : IsTrans String strKeyLe := ⟨fun a b c hx hy => charsLe_trans a.data b.data c.data hx hy⟩
    exact ⟨List.sorted_insertionSort strKeyLe keys, List.perm_insertionSort strKeyLe keys⟩
  · rw [readBron2ToGmws] at h
    obtain ⟨u, hu, h⟩ := exceptBind_ok h
    exact mapM_gmw_keys root.children (sortedKeys (childNames root.children)) gs h

/-- Witness for C5: the root with keys `"1","10","2"` decodes in numeric
order `1, 2, 10` keyed by the original strings, while the same keys with a
non-numeric member sort lexicographically (`["1","10","2","a"]`). -/
theorem claim_C5_key_ordering_witness :
    (readBron2ToGmws c5Root = .ok
      [("1", ⟨emptyTable, emptyTable, emptyTable⟩),
       ("2", ⟨emptyTable, emptyTable, emptyTable⟩),
       ("10", ⟨emptyTable, emptyTable, emptyTable⟩)]) ∧
    ([("1", (⟨emptyTable, emptyTable, emptyTable⟩ : GMW)),
      ("2", ⟨emptyTable, emptyTable, emptyTable⟩),
      ("10", ⟨emptyTable, emptyTable, emptyTable⟩)].map Prod.fst =
        sortedKeys (childNames c5Root.children)) ∧
    List.Pairwise intKeyLe (sortedKeys ["1", "10", "2"]) ∧
    sortedKeys ["1", "10", "2"] = ["1", "2", "10"] ∧
    List.Pairwise intKeyLe (sortedKeys ["2", " 10"]) ∧
    sortedKeys ["2", " 10"] = ["2", " 10"] ∧
    pyInt " 10" = some 10 ∧
    pyInt "+3" = some 3 ∧
    pyInt "1_0" = some 10 ∧
    pyInt "\u0663" = some 3 ∧
    pyInt "1_" = none ∧
    pyInt "+ 1" = none ∧
    pyInt "a" = none ∧
    List.Pairwise strKeyLe (sortedKeys ["1", "10", "2", "a"]) ∧
    sortedKeys ["1", "10", "2", "a"] = ["1", "10", "2", "a"] := by
  refine ⟨by decide, ?_, (claim_C5_key_ordering.1 ["1", "10", "2"] (by decide)).1,
    by decide, (claim_C5_key_ordering.1 ["2", " 10"] (by decide)).1,
    by decide, by decide, by decide, by decide, by decide, by decide, by decide, by decide,
    ?_, by decide⟩
  · exact claim_C5_key_ordering.2.2 c5Root _ (by decide)
  · exact (claim_C5_key_ordering.2.1 ["1", "10", "2", "a"] (by decide)).1

/-! ## Claim C1: the encode/decode round trip -/

theorem Vals.toList_ofList : ∀ l : List Value, (Vals.ofList l).toList = l
  | [] => rfl
  | v :: rest => by simp [Vals.ofList, Vals.toList, toList_ofList rest]

theorem bytesVals_toList (l : List String) : (bytesVals l).toList = l.map Value.vbytes :=
  Vals.toList_ofList _

theorem mapM_valAsKey : ∀ l : List String, (l.map Value.vbytes).mapM valAsKey = .ok l
  | [] => by rw [List.map_nil, List.mapM_nil]; rfl
  | s :: rest => by
    rw [List.map_cons, List.mapM_cons, mapM_valAsKey rest]
    rfl

theorem map_astype_vbytes : ∀ l : List String, (l.map Value.vbytes).map astypeBytes = l
  | [] => rfl
  | s :: rest => by simp [astypeBytes, map_astype_vbytes rest]

theorem Children.size_ofList_append : ∀ (a b : List (String × HNode)),
    (Children.ofList (a ++ b)).size = (Children.ofList a).size + (Children.ofList b).size
  | [], b => by simp [Children.ofList, Children.size]
  | (n, nd) :: rest, b => by
    show (Children.ofList ((n, nd) :: (rest ++ b))).size = _
    simp only [Children.ofList, Children.size]
    rw [Children.size_ofList_append rest b]
    omega

theorem listFind_size_le : ∀ (l : List (String × HNode)) (k : String) (nd : HNode),
    listFind l k = some nd → nd.size ≤ (Children.ofList l).size := by
  intro l
  induction l with
  | nil => intro k nd h; simp [listFind] at h
  | cons p rest ih =>
    obtain ⟨name, node⟩ := p
    intro k nd h
    simp only [listFind] at h
    by_cases he : name = k
    · rw [if_pos he] at h
      cases h
      simp only [Children.ofList, Children.size]
      omega
    · rw [if_neg he] at h
      have := ih k nd h
      simp only [Children.ofList, Children.size]
      omega

theorem listFind_mem_keys : ∀ (l : List (String × HNode)) (k : String) (nd : HNode),
    listFind l k = some nd → k ∈ l.map Prod.fst := by
  intro l
  induction l with
  | nil => intro k nd h; simp [listFind] at h
  | cons p rest ih =>
    obtain ⟨name, node⟩ := p
    intro k nd h
    simp only [listFind] at h
    by_cases he : name = k
    · subst he
      simp
    · rw [if_neg he] at h
      simp [ih k nd h]

theorem writeElems_ok_cons : ∀ {v : Value} {rest : Vals} {i : Nat} {l : List (String × HNode)},
    writeElems i (.cons v rest) = .ok l →
    ∃ t node tail, v = .vtable t ∧ writeDf t = .ok node ∧ writeElems (i + 1) rest = .ok tail ∧
      l = (elementKey i, node) :: tail := by
  intro v rest i l h
  match v with
  | .vint k => simp [writeElems, Bind.bind, Except.bind] at h
  | .vfloat k => simp [writeElems, Bind.bind, Except.bind] at h
  | .vbool k => simp [writeElems, Bind.bind, Except.bind] at h
  | .vbytes k => simp [writeElems, Bind.bind, Except.bind] at h
  | .vtable t =>
    simp only [writeElems] at h
    obtain ⟨node, hn, h⟩ := exceptBind_ok h
    obtain ⟨tail, ht, h⟩ := exceptBind_ok h
    cases h
    exact ⟨t, node, tail, rfl, hn, ht, rfl⟩

theorem writeCols_ok_shape : ∀ (cols : Cols) (acc out : List (String × HNode)),
    writeCols acc cols = .ok out →
    ∃ built, out = acc ++ built ∧ built.map Prod.fst = cols.names
  | .nil, acc, out, h => by
    simp only [writeCols] at h
    cases h
    exact ⟨[], by simp, by simp [Cols.names]⟩
  | .cons name vals rest, acc, out, h => by
    simp only [writeCols] at h
    obtain ⟨ml, hml, h⟩ := exceptBind_ok h
    by_cases hacc : name ∈ acc.map Prod.fst
    · rw [if_pos hacc] at h
      cases h
    · rw [if_neg hacc] at h
      by_cases htab : ml = "table"
      · rw [if_pos htab] at h
        obtain ⟨elemsL, hel, h⟩ := exceptBind_ok h
        obtain ⟨built, hout, hnames⟩ := writeCols_ok_shape rest _ out h
        refine ⟨(name, HNode.grp (Children.ofList (elemsL ++ writeDfMetadata [name] [] []))
          (some (.bstr "table"))) :: built, ?_, ?_⟩
        · rw [hout]
          simp
        · simp [Cols.names, hnames]
      · rw [if_neg htab] at h
        obtain ⟨built, hout, hnames⟩ := writeCols_ok_shape rest _ out h
        refine ⟨(name, HNode.dset vals (some (.bstr ml))) :: built, ?_, ?_⟩
        · rw [hout]
          simp
        · simp [Cols.names, hnames]

theorem writeCols_ok_assoc : ∀ (cols : Cols) (acc out : List (String × HNode)),
    writeCols acc cols = .ok out →
    ∀ name vals, (name, vals) ∈ cols.toList →
      ∃ ml node, inferColumnMatlabType vals.toList = .ok ml ∧
        ((ml = "table" ∧ ∃ elemsL, writeElems 1 vals = .ok elemsL ∧
            node = HNode.grp (Children.ofList (elemsL ++ writeDfMetadata [name] [] []))
              (some (.bstr "table"))) ∨
         (ml ≠ "table" ∧ node = HNode.dset vals (some (.bstr ml)))) ∧
        listFind out name = some node
  | .nil, acc, out, h => by
    intro name vals hmem
    simp [Cols.toList] at hmem
  | .cons cname cvals rest, acc, out, h => by
    intro name vals hmem
    simp only [writeCols] at h
    obtain ⟨ml, hml, h⟩ := exceptBind_ok h
    by_cases hacc : cname ∈ acc.map Prod.fst
    · rw [if_pos hacc] at h
      cases h
    · rw [if_neg hacc] at h
      rcases (by simpa [Cols.toList] using hmem :
          (name = cname ∧ vals = cvals) ∨ (name, vals) ∈ rest.toList) with ⟨hn, hv⟩ | htail
      · subst hn hv
        by_cases htab : ml = "table"
        · rw [if_pos htab] at h
          obtain ⟨elemsL, hel, h⟩ := exceptBind_ok h
          obtain ⟨built, hout, _⟩ := writeCols_ok_shape rest _ out h
          subst htab
          refine ⟨"table", _, hml, Or.inl ⟨rfl, elemsL, hel, rfl⟩, ?_⟩
          rw [hout, List.append_assoc, listFind_append _ _ _ hacc]
          simp [listFind]
        · rw [if_neg htab] at h
          obtain ⟨built, hout, _⟩ := writeCols_ok_shape rest _ out h
          refine ⟨ml, _, hml, Or.inr ⟨htab, rfl⟩, ?_⟩
          rw [hout, List.append_assoc, listFind_append _ _ _ hacc]
          simp [listFind]
      · by_cases htab : ml = "table"
        · rw [if_pos htab] at h
          obtain ⟨elemsL, hel, h⟩ := exceptBind_ok h
          exact writeCols_ok_assoc rest _ out h name vals htail
        · rw [if_neg htab] at h
          exact writeCols_ok_assoc rest _ out h name vals htail

theorem Cols.names_ne_nil : ∀ (cols : Cols), cols ≠ .nil → cols.names ≠ []
  | .nil, h => absurd rfl h
  | .cons n v r, _ => by simp [Cols.names]

theorem parseElems_encoded (m : Nat)
    (hIH : ∀ (t' : Table) (node' : HNode), WellFormedTable t' → writeDf t' = .ok node' →
      node'.size < m → parseF m node' = .ok t') :
    ∀ (vals : Vals) (i : Nat) (l : List (String × HNode)) (ccs : Children),
      writeElems i vals = .ok l →
      (∀ key nd, listFind l key = some nd → ccs.find key = some nd) →
      (∀ key nd, listFind l key = some nd → nd.size < m) →
      (∀ t', (∃ v ∈ vals.toList, v = Value.vtable t') → WellFormedTable t') →
      parseElemsGo (parseF m) ccs i vals.toList.length = .ok vals
  | .nil, i, l, ccs, henc, hfind, hsz, hwf => by
    simp [Vals.toList, parseElemsGo]
  | .cons v rest, i, l, ccs, henc, hfind, hsz, hwf => by
    obtain ⟨t, node, tail, hv, hdf, htail, hl⟩ := writeElems_ok_cons henc
    subst hv
    subst hl
    have hhead : listFind ((elementKey i, node) :: tail) (elementKey i) = some node := by
      simp [listFind]
    have hkeys := writeElems_names rest (i + 1) tail htail
    have hkeyne : ∀ key nd, listFind tail key = some nd → elementKey i ≠ key := by
      intro key nd hfd he
      have hmem := listFind_mem_keys tail key nd hfd
      rw [hkeys] at hmem
      obtain ⟨k, _, hk⟩ := List.mem_map.mp hmem
      have := elementKey_injective (he.trans hk.symm)
      omega
    show parseElemsGo (parseF m) ccs i (rest.toList.length + 1) = _
    rw [parseElemsGo]
    have hg : getChild ccs (elementKey i) = .ok node := by
      simp [getChild, hfind _ _ hhead]
    have hp : parseF m node = .ok t := by
      refine hIH t node (hwf t ⟨Value.vtable t, ?_, rfl⟩) hdf (hsz _ _ hhead)
      simp [Vals.toList]
    have hrec : parseElemsGo (parseF m) ccs (i + 1) rest.toList.length = .ok rest := by
      refine parseElems_encoded m hIH rest (i + 1) tail ccs htail ?_ ?_ ?_
      · intro key nd hfd
        refine hfind key nd ?_
        simpa [listFind, hkeyne key nd hfd] using hfd
      · intro key nd hfd
        refine hsz key nd ?_
        simpa [listFind, hkeyne key nd hfd] using hfd
      · intro t' hex
        obtain ⟨v', hv', he⟩ := hex
        exact hwf t' ⟨v', by simp [Vals.toList, hv'], he⟩
    simp [hg, hp, hrec, Bind.bind, Except.bind]

theorem findNrows_encoded (out : List (String × HNode)) (nrows : Nat) :
    ∀ (cols : Cols),
      (∀ name vals, (name, vals) ∈ cols.toList →
        ∃ ml node, inferColumnMatlabType vals.toList = .ok ml ∧
          ((ml = "table" ∧ ∃ elemsL, writeElems 1 vals = .ok elemsL ∧
              node = HNode.grp (Children.ofList (elemsL ++ writeDfMetadata [name] [] []))
                (some (.bstr "table"))) ∨
           (ml ≠ "table" ∧ node = HNode.dset vals (some (.bstr ml)))) ∧
          listFind out name = some node) →
      (∀ vs ∈ cols.valLists, vs.toList.length = nrows) →
      (∃ vs ∈ cols.valLists, vs.toList.all (fun v => !(isTableVal v)) = true) →
      findNrows (Children.ofList out) cols.names = .ok nrows
  | .nil => by
    intro _ _ hex
    simp [Cols.valLists] at hex
  | .cons name vals rest => by
    intro hassoc hlen hex
    obtain ⟨ml, node, hml, hshape, hfind⟩ := hassoc name vals (by simp [Cols.toList])
    show findNrows (Children.ofList out) (name :: rest.names) = .ok nrows
    rw [findNrows]
    have hg : getChild (Children.ofList out) name = .ok node := by
      simp [getChild, Children.find_ofList, hfind]
    rcases hshape with ⟨htab, elemsL, hel, hnode⟩ | ⟨htab, hnode⟩
    · subst hnode
      simp only [hg, Bind.bind, Except.bind]
      refine findNrows_encoded out nrows rest
        (fun n v hm => hassoc n v (by simp [Cols.toList, hm]))
        (fun vs hm => hlen vs (by simp [Cols.valLists, hm])) ?_
      rcases hex with ⟨vs, hvmem, hall⟩
      rcases (by simpa [Cols.valLists] using hvmem : vs = vals ∨ vs ∈ rest.valLists) with rfl | hm
      · exfalso
        subst htab
        have hany := (infer_table_iff vs.toList).mp hml
        obtain ⟨v, hvm, hvt⟩ := List.any_eq_true.mp hany
        have := List.all_eq_true.mp hall v hvm
        simp [hvt] at this
      · exact ⟨vs, hm, hall⟩
    · subst hnode
      simp only [hg, Bind.bind, Except.bind]
      rw [hlen vals (by simp [Cols.valLists])]

theorem parseColsGo_encoded (m : Nat)
    (hIH : ∀ (t' : Table) (node' : HNode), WellFormedTable t' → writeDf t' = .ok node' →
      node'.size < m → parseF m node' = .ok t')
    (out : List (String × HNode)) (nrows : Nat) :
    ∀ (cols : Cols),
      (∀ name vals, (name, vals) ∈ cols.toList →
        ∃ ml node, inferColumnMatlabType vals.toList = .ok ml ∧
          ((ml = "table" ∧ ∃ elemsL, writeElems 1 vals = .ok elemsL ∧
              node = HNode.grp (Children.ofList (elemsL ++ writeDfMetadata [name] [] []))
                (some (.bstr "table"))) ∨
           (ml ≠ "table" ∧ node = HNode.dset vals (some (.bstr ml)))) ∧
          listFind out name = some node) →
      (∀ key nd, listFind out key = some nd → nd.size < m) →
      (∀ vs ∈ cols.valLists, vs.toList.length = nrows) →
      (∀ t', (∃ vs ∈ cols.valLists, Value.vtable t' ∈ vs.toList) → WellFormedTable t') →
      parseColsGo (parseF m) (Children.ofList out) nrows cols.names = .ok cols
  | .nil => by
    intro _ _ _ _
    simp [Cols.names, parseColsGo]
  | .cons name vals rest => by
    intro hassoc hsz hlen hwf
    obtain ⟨ml, node, hml, hshape, hfind⟩ := hassoc name vals (by simp [Cols.toList])
    show parseColsGo (parseF m) (Children.ofList out) nrows (name :: rest.names) = _
    rw [parseColsGo]
    have hg : getChild (Children.ofList out) name = .ok node := by
      simp [getChild, Children.find_ofList, hfind]
    have hrec : parseColsGo (parseF m) (Children.ofList out) nrows rest.names = .ok rest :=
      parseColsGo_encoded m hIH out nrows rest
        (fun n v hm => hassoc n v (by simp [Cols.toList, hm])) hsz
        (fun vs hm => hlen vs (by simp [Cols.valLists, hm]))
        (fun t' hex => by
          obtain ⟨vs, hm, hmem⟩ := hex
          exact hwf t' ⟨vs, by simp [Cols.valLists, hm], hmem⟩)
    rcases hshape with ⟨htab, elemsL, hel, hnode⟩ | ⟨htab, hnode⟩
    · subst htab
      subst hnode
      simp only [hg, Bind.bind, Except.bind, attrMatlabType]
      rw [readColumnValues, if_neg (by simp)]
      have hvlen : vals.toList.length = nrows := hlen vals (by simp [Cols.valLists])
      have helems : parseElemsGo (parseF m)
          (Children.ofList (elemsL ++ writeDfMetadata [name] [] [])) 1 vals.toList.length =
          .ok vals := by
        refine parseElems_encoded m hIH vals 1 elemsL _ hel ?_ ?_ ?_
        · intro key nd hfd
          rw [Children.find_ofList]
          exact listFind_append_left _ _ _ _ hfd
        · intro key nd hfd
          have h1 := listFind_size_le elemsL key nd hfd
          have h2 := Children.size_ofList_append elemsL (writeDfMetadata [name] [] [])
          have h4 := hsz name _ hfind
          have h3 : (HNode.grp (Children.ofList (elemsL ++ writeDfMetadata [name] [] []))
              (some (MLType.bstr "table"))).size =
              1 + (Children.ofList (elemsL ++ writeDfMetadata [name] [] [])).size := rfl
          omega
        · intro t' hex
          obtain ⟨v, hvm, hveq⟩ := hex
          refine hwf t' ⟨vals, by simp [Cols.valLists], ?_⟩
          rw [← hveq]
          exact hvm
      rw [hvlen] at helems
      simp [helems, hrec, Bind.bind, Except.bind]
    · subst hnode
      simp only [hg, Bind.bind, Except.bind, attrMatlabType]
      have hne1 : MLType.bstr ml ≠ MLType.bstr "table" := by
        intro hc
        exact htab (by injection hc)
      rw [readColumnValues, if_pos ⟨hne1, by simp⟩]
      simp only [dsetData, Bind.bind, Except.bind]
      rw [if_pos (hlen vals (by simp [Cols.valLists]))]
      simp [hrec, Bind.bind, Except.bind]

theorem roundtrip_fuel : ∀ (fuel : Nat) (t : Table) (node : HNode),
    WellFormedTable t → writeDf t = .ok node → node.size < fuel →
    parseF fuel node = .ok t := by
  intro fuel
  induction fuel with
  | zero =>
    intro t node _ _ h
    omega
  | succ m ih =>
    intro t node hwf henc hsz
    obtain ⟨cols, vds, vus⟩ := t
    rw [writeDf] at henc
    obtain ⟨out, hcols, henc⟩ := exceptBind_ok henc
    cases henc
    have hszout : ∀ key nd, listFind out key = some nd → nd.size < m := by
      intro key nd hf
      have h1 := listFind_size_le out key nd hf
      have h2 : (HNode.grp (Children.ofList out) (some (MLType.bstr "table"))).size =
          1 + (Children.ofList out).size := rfl
      omega
    obtain ⟨built, hout, hbnames⟩ := writeCols_ok_shape cols _ out hcols
    have hvnfind : getChild (Children.ofList out) "VariableNames" =
        .ok (.dset (bytesVals cols.names) (some (.bstr "cellstr"))) := by
      subst hout
      simp [getChild, Children.find_ofList, writeDfMetadata, listFind]
    cases hwf with
    | empty =>
      rw [parseF, parseBody]
      simp [hvnfind, dsetData, bytesVals_toList, Bind.bind, Except.bind, emptyTable, Cols.names]
    | table cols vds vus nrows hne hmark hvdl hvul hlen hex hsub =>
      have hnames_ne := Cols.names_ne_nil cols hne
      have hsent : ¬((cols.names.map Value.vbytes).length = 0 ∨
          ((cols.names.map Value.vbytes).length = 1 ∧
            (cols.names.map Value.vbytes).head? = some (Value.vbytes "Var1"))) := by
        rcases hcn : cols.names with _ | ⟨n1, ns⟩
        · exact absurd hcn hnames_ne
        · rintro (h0 | ⟨h1, h2⟩)
          · simp at h0
          · simp only [List.map_cons, List.length_cons, List.head?_cons,
              Option.some.injEq, Value.vbytes.injEq] at h1 h2
            have hns : ns = [] := by
              simpa using h1
            exact hmark (by rw [hcn, h2, hns])
      have hvdfind : getChild (Children.ofList out) "VariableDescriptions" =
          .ok (.dset (bytesVals vds) (some (.bstr "cellstr"))) := by
        subst hout
        simp [getChild, Children.find_ofList, writeDfMetadata, listFind]
      have hvufind : getChild (Children.ofList out) "VariableUnits" =
          .ok (.dset (bytesVals vus) (some (.bstr "cellstr"))) := by
        subst hout
        simp [getChild, Children.find_ofList, writeDfMetadata, listFind]
      have hmetaD : readMetadataArray (Children.ofList out) "VariableDescriptions"
          cols.names.length = .ok vds := by
        simp only [readMetadataArray, hvdfind, Bind.bind, Except.bind, dsetData, bytesVals_toList]
        rw [if_pos (by
          rw [List.length_map, hvdl]
          exact List.length_pos.mpr hnames_ne)]
        rw [map_astype_vbytes]
      have hmetaU : readMetadataArray (Children.ofList out) "VariableUnits"
          cols.names.length = .ok vus := by
        simp only [readMetadataArray, hvufind, Bind.bind, Except.bind, dsetData, bytesVals_toList]
        rw [if_pos (by
          rw [List.length_map, hvul]
          exact List.length_pos.mpr hnames_ne)]
        rw [map_astype_vbytes]
      have hassoc := writeCols_ok_assoc cols _ out hcols
      have hnr : findNrows (Children.ofList out) cols.names = .ok nrows :=
        findNrows_encoded out nrows cols hassoc hlen hex
      have hpc : parseColsGo (parseF m) (Children.ofList out) nrows cols.names = .ok cols :=
        parseColsGo_encoded m ih out nrows cols hassoc hszout hlen
          (fun t' hex' => hsub t' hex')
      rw [parseF, parseBody]
      simp only [hvnfind, Bind.bind, Except.bind, dsetData, bytesVals_toList]
      rw [if_neg hsent]
      simp only [mapM_valAsKey, Bind.bind, Except.bind, List.length_map, hmetaD, hmetaU,
        hnr, hpc]

/-- C1 (amended): for every well-formed table — the canonical empty table,
or a table with at least one column that is not the `Var1` empty-table
marker, has exactly one description and one unit per column, is
rectangular, has at least one non-nested column, and recursively nests
only such tables — a successful encode followed by decode reproduces the
table exactly: same column order, names and values, and same metadata
sequences.  (The claim's unique-name and homogeneity conditions are
subsumed: without them `write_df` cannot succeed at all.) -/
theorem claim_C1_roundtrip :
    ∀ (t : Table) (node : HNode), WellFormedTable t → writeDf t = .ok node →
      parseBronhdf node = .ok t :=
  fun t node hwf henc => roundtrip_fuel (node.size + 1) t node hwf henc (by omega)

/-- Counterexample to C1 as stated: `c1Marker` satisfies every condition the
claim lists for well-formedness — unique column names, homogeneous int64
column, no nesting, at least one non-nested column, non-empty, metadata
aligned one-per-column — but encoding and decoding it yields the canonical
empty table, not the original: its single column is named `Var1`, which
the decoder unconditionally treats as the empty-table marker. -/
theorem claim_C1_counterexample :
    c1Marker.cols.names.Nodup ∧
    (∀ vs ∈ c1Marker.cols.valLists,
      vs.toList.all (fun v => match v with | .vint _ => true | _ => false) = true) ∧
    (∃ vs ∈ c1Marker.cols.valLists, vs.toList.all (fun v => !(isTableVal v)) = true) ∧
    c1Marker.cols ≠ .nil ∧
    c1Marker.vds.length = c1Marker.cols.names.length ∧
    c1Marker.vus.length = c1Marker.cols.names.length ∧
    roundTrip c1Marker = .ok emptyTable ∧
    emptyTable ≠ c1Marker := by decide

theorem c1Inner_wf : WellFormedTable c1Inner := by
  refine WellFormedTable.table _ _ _ 1 (by decide) (by decide) (by decide) (by decide)
    (by decide) (by decide) ?_
  intro t' h
  exfalso
  simp [SubTableOf, Table.cols, Cols.valLists, Vals.toList, c1Inner] at h

theorem c1Nested_wf : WellFormedTable c1Nested := by
  refine WellFormedTable.table _ _ _ 1 (by decide) (by decide) (by decide) (by decide)
    (by decide) (by decide) ?_
  intro t' h
  simp [SubTableOf, Table.cols, Cols.valLists, Vals.toList, c1Nested] at h
  subst h
  exact c1Inner_wf

/-- Witness for the amended C1: the two-column table with a nested-table
column round-trips exactly through encode and decode. -/
theorem claim_C1_roundtrip_witness : roundTrip c1Nested = .ok c1Nested := by
  obtain ⟨node, henc⟩ : ∃ node, writeDf c1Nested = .ok node := ⟨_, rfl⟩
  have h := claim_C1_roundtrip c1Nested node c1Nested_wf henc
  simp [roundTrip, henc, Bind.bind, Except.bind, h]
